import Mathlib

/-!
Verification of the pibao pet health tracker's core aggregation logic.

The development shallowly embeds the pure computational core of the
repository:

* `calculateDailyStats` from `src/services/storage.ts` (daily
  nutrition/hydration aggregation over intake lists),
* `getUrineValue`, `dailyWeightMap` and `dailyLitterAgeMap` from
  `src/components/HistoryView.tsx` (urine ordinal mapping, rolling weight
  forward fill, reminder cycle day counting),
* the pure state-update part of `handleSaveFood` from the application root
  component (default-food uniqueness).

JavaScript numbers are modelled as exact rationals `ℚ`, JavaScript strings
as Lean `String` (with the string operations `includes`/`split` mirrored on
the underlying character lists, since those mirror images are structurally
recursive and hence computable by the kernel), and nullable/optional fields
as `Option`.
-/

namespace Pibao

/-- `FoodDef` from `src/types.ts`.  The `type` field is kept as a raw string
because stored legacy records may still carry the retired category
`"副食"` besides the live categories `"飼料" | "罐頭" | "零食"`
(cf. the legacy handling inside `calculateDailyStats`). -/
structure FoodDef where
  id : String
  name : String
  type : String
  caloriesPerGram : ℚ
  waterContentPercent : ℚ
  order : Option ℚ := none
  isDefault : Option Bool := none
  defaultAmount : Option ℚ := none
deriving DecidableEq

/-- `FoodIntake` from `src/types.ts`. -/
structure FoodIntake where
  id : String
  foodId : String
  amount : ℚ
deriving DecidableEq

/-- `WaterIntakeType` from `src/types.ts`: `'bowl' | 'direct' | 'evaporation'`. -/
inductive WaterIntakeType where
  | bowl
  | direct
  | evaporation
deriving DecidableEq

/-- `WaterIntake` from `src/types.ts`.  `amount2` is the nullable leftover
for bowl entries; `evaporation` is the optional deprecated per-entry
evaporation offset. -/
structure WaterIntake where
  id : String
  type : WaterIntakeType
  amount1 : ℚ
  amount2 : Option ℚ
  evaporation : Option ℚ := none
deriving DecidableEq

/-- `DailyRecord` from `src/types.ts`. -/
structure DailyRecord where
  id : String
  date : String
  weight : ℚ
  foodIntakes : List FoodIntake
  waterIntakes : List WaterIntake
  urineSize : String := ""
  urineCount : ℚ := 0
  stoolStatus : String := ""
  notes : String := ""
deriving DecidableEq

/-- Result record of `calculateDailyStats`. -/
structure DailyStats where
  totalCalories : ℚ
  sideCalories : ℚ
  foodWater : ℚ
  totalWater : ℚ
  drinkWater : ℚ
deriving DecidableEq

/-- One step of the `record.foodIntakes.forEach` accumulation in
`calculateDailyStats` (`src/services/storage.ts` lines 208-224): the
accumulator is the triple `(totalCalories, sideCalories, foodWater)`. -/
def foodAccum (foods : List FoodDef) (acc : ℚ × ℚ × ℚ) (intake : FoodIntake) : ℚ × ℚ × ℚ :=
  match foods.find? (fun f => f.id == intake.foodId) with
  | some food =>
      let cals := intake.amount * food.caloriesPerGram
      let side := if food.type == "零食" || food.type == "副食" then acc.2.1 + cals else acc.2.1
      (acc.1 + cals, side, acc.2.2 + intake.amount * (food.waterContentPercent / 100))
  | none => acc

/-- One step of the `record.waterIntakes.forEach` accumulation in
`calculateDailyStats` (`src/services/storage.ts` lines 229-241): the
accumulator is `drinkWater`.  `w.evaporation || 0` is modelled as
`(w.evaporation).getD 0` (for the number-typed field, JavaScript falsiness
of `undefined` and of `0` both yield the offset `0`). -/
def waterAccum (acc : ℚ) (w : WaterIntake) : ℚ :=
  match w.type with
  | .bowl =>
      match w.amount2 with
      | some leftover => acc + max 0 (w.amount1 - leftover - w.evaporation.getD 0)
      | none => acc
  | .direct => acc + w.amount1
  | .evaporation => acc - w.amount1

/-- `calculateDailyStats` from `src/services/storage.ts` lines 200-251.
The truthiness guards `if (record.foodIntakes)` / `if (record.waterIntakes)`
are vacuous in this model because the typed fields are plain lists (a
missing or empty list contributes nothing either way). -/
def calculateDailyStats (record : DailyRecord) (foods : List FoodDef) : DailyStats :=
  let food := record.foodIntakes.foldl (foodAccum foods) (0, 0, 0)
  let drinkWater := record.waterIntakes.foldl waterAccum 0
  { totalCalories := food.1
    sideCalories := food.2.1
    foodWater := food.2.2
    totalWater := food.2.2 + drinkWater
    drinkWater := drinkWater }

/-- Calorie contribution of a single food intake entry: `amount ×
caloriesPerGram` of the definition resolved by id, `0` when unresolved. -/
def intakeCalories (foods : List FoodDef) (intake : FoodIntake) : ℚ :=
  match foods.find? (fun f => f.id == intake.foodId) with
  | some food => intake.amount * food.caloriesPerGram
  | none => 0

/-- Side (snack) calorie contribution of a single food intake entry. -/
def intakeSideCalories (foods : List FoodDef) (intake : FoodIntake) : ℚ :=
  match foods.find? (fun f => f.id == intake.foodId) with
  | some food =>
      if food.type == "零食" || food.type == "副食" then
        intake.amount * food.caloriesPerGram
      else 0
  | none => 0

/-- Food-borne water contribution of a single food intake entry. -/
def intakeFoodWater (foods : List FoodDef) (intake : FoodIntake) : ℚ :=
  match foods.find? (fun f => f.id == intake.foodId) with
  | some food => intake.amount * (food.waterContentPercent / 100)
  | none => 0

/-- Drink-water contribution of a single water intake entry. -/
def waterContribution (w : WaterIntake) : ℚ :=
  match w.type with
  | .bowl =>
      match w.amount2 with
      | some leftover => max 0 (w.amount1 - leftover - w.evaporation.getD 0)
      | none => 0
  | .direct => w.amount1
  | .evaporation => -w.amount1

theorem foodAccum_foldl (foods : List FoodDef) (l : List FoodIntake) :
    ∀ t s w : ℚ, l.foldl (foodAccum foods) (t, s, w) =
      (t + (l.map (intakeCalories foods)).sum,
       s + (l.map (intakeSideCalories foods)).sum,
       w + (l.map (intakeFoodWater foods)).sum) := by
  induction l with
  | nil => intro t s w; simp
  | cons a l ih =>
      intro t s w
      simp only [List.foldl_cons, List.map_cons, List.sum_cons, ih]
      unfold foodAccum intakeCalories intakeSideCalories intakeFoodWater
      cases foods.find? (fun f => f.id == a.foodId) with
      | none => simp only [Prod.mk.injEq]; refine ⟨by ring, by ring, by ring⟩
      | some food =>
          by_cases h : (food.type == "零食" || food.type == "副食") = true <;>
            simp only [h, if_true, if_false, Bool.false_eq_true, Prod.mk.injEq] <;>
            refine ⟨by ring, by ring, by ring⟩

theorem waterAccum_foldl (l : List WaterIntake) :
    ∀ a : ℚ, l.foldl waterAccum a = a + (l.map waterContribution).sum := by
  induction l with
  | nil => intro a; simp
  | cons w l ih =>
      intro a
      simp only [List.foldl_cons, List.map_cons, List.sum_cons, ih]
      unfold waterAccum waterContribution
      cases w.type with
      | bowl =>
          cases w.amount2 with
          | none => simp
          | some leftover => simp only []; ring
      | direct => ring
      | evaporation => ring

/-- Closed form of `calculateDailyStats`: every result component is a plain
sum of per-entry contributions. -/
theorem calculateDailyStats_eq (record : DailyRecord) (foods : List FoodDef) :
    calculateDailyStats record foods =
      { totalCalories := (record.foodIntakes.map (intakeCalories foods)).sum
        sideCalories := (record.foodIntakes.map (intakeSideCalories foods)).sum
        foodWater := (record.foodIntakes.map (intakeFoodWater foods)).sum
        totalWater := (record.foodIntakes.map (intakeFoodWater foods)).sum
          + (record.waterIntakes.map waterContribution).sum
        drinkWater := (record.waterIntakes.map waterContribution).sum } := by
  unfold calculateDailyStats
  rw [foodAccum_foldl, waterAccum_foldl]
  simp


/-- C1: for every daily record and food catalog in which every food intake
entry resolves to a catalog definition, `totalCalories` equals the sum over
the `foodIntakes` list of `amount × caloriesPerGram` of the referenced
definition, and this value is unchanged under any permutation of the
`foodIntakes` list. -/
theorem totalCalories_eq_sum_and_perm_invariant (record : DailyRecord) (foods : List FoodDef)
    (hres : ∀ i ∈ record.foodIntakes, ∃ f, foods.find? (fun g => g.id == i.foodId) = some f) :
    (calculateDailyStats record foods).totalCalories
      = (record.foodIntakes.map (fun i =>
          i.amount * (((foods.find? (fun g => g.id == i.foodId)).map
            FoodDef.caloriesPerGram).getD 0))).sum
    ∧ ∀ l' : List FoodIntake, record.foodIntakes.Perm l' →
        (calculateDailyStats { record with foodIntakes := l' } foods).totalCalories
          = (calculateDailyStats record foods).totalCalories := by
  constructor
  · rw [calculateDailyStats_eq]
    refine congrArg List.sum (List.map_congr_left ?_)
    intro i hi
    obtain ⟨f, hf⟩ := hres i hi
    simp [intakeCalories, hf]
  · intro l' hp
    rw [calculateDailyStats_eq, calculateDailyStats_eq]
    exact ((hp.map (intakeCalories foods)).sum_eq).symm

/-- Closed witness for C1 at a concrete one-entry record. -/
theorem totalCalories_eq_sum_and_perm_invariant_witness :
    (calculateDailyStats ⟨"r1", "2024-01-01", 4, [⟨"i1", "f1", 30⟩], [], "", 0, "", ""⟩
        [⟨"f1", "c/d", "飼料", 2, 8, none, none, none⟩]).totalCalories = 60 := by
  have h := (totalCalories_eq_sum_and_perm_invariant
      ⟨"r1", "2024-01-01", 4, [⟨"i1", "f1", 30⟩], [], "", 0, "", ""⟩
      [⟨"f1", "c/d", "飼料", 2, 8, none, none, none⟩]
      (by intro i hi; fin_cases hi; exact ⟨_, rfl⟩)).1
  rw [h]
  norm_num [List.find?]

/-- C2: a water intake entry of kind `bowl` contributes exactly
`max 0 (original − leftover − evaporationOffset)` to `drinkWater` when its
leftover is non-null (a missing offset counting as `0`), and contributes `0`
when its leftover is null, wherever the entry sits in the list. -/
theorem bowl_entry_contribution (record : DailyRecord) (foods : List FoodDef)
    (pre post : List WaterIntake) (w : WaterIntake) (hw : w.type = .bowl) :
    (calculateDailyStats { record with waterIntakes := pre ++ w :: post } foods).drinkWater
      = (calculateDailyStats { record with waterIntakes := pre ++ post } foods).drinkWater
        + (match w.amount2 with
           | some leftover => max 0 (w.amount1 - leftover - w.evaporation.getD 0)
           | none => 0) := by
  rw [calculateDailyStats_eq, calculateDailyStats_eq]
  simp only [List.map_append, List.map_cons, List.sum_append, List.sum_cons,
    waterContribution, hw]
  cases w.amount2 <;> ring

/-- Closed witness for C2: the bowl entry `{original 200, leftover 50,
evaporation 10}` contributes exactly `140`, and a bowl entry with null
leftover contributes `0` despite `original = 500`. -/
theorem bowl_entry_contribution_witness :
    (calculateDailyStats ⟨"r1", "2024-01-01", 0, [], [⟨"w1", .bowl, 200, some 50, some 10⟩],
        "", 0, "", ""⟩ []).drinkWater
      = (calculateDailyStats ⟨"r1", "2024-01-01", 0, [], [], "", 0, "", ""⟩ []).drinkWater + 140
    ∧ (calculateDailyStats ⟨"r1", "2024-01-01", 0, [], [⟨"w2", .bowl, 500, none, none⟩],
        "", 0, "", ""⟩ []).drinkWater
      = (calculateDailyStats ⟨"r1", "2024-01-01", 0, [], [], "", 0, "", ""⟩ []).drinkWater + 0 := by
  constructor
  · have h := bowl_entry_contribution
      ⟨"r1", "2024-01-01", 0, [], [], "", 0, "", ""⟩ [] [] []
      ⟨"w1", .bowl, 200, some 50, some 10⟩ rfl
    norm_num at h
    simpa using h
  · have h := bowl_entry_contribution
      ⟨"r1", "2024-01-01", 0, [], [], "", 0, "", ""⟩ [] [] []
      ⟨"w2", .bowl, 500, none, none⟩ rfl
    simpa using h

/-- C3: an `evaporation` water entry contributes exactly `−amount` to
`drinkWater`; `totalWater = foodWater + drinkWater` with no clamping at
zero; and `totalWater` can indeed go negative. -/
theorem evaporation_deduction_and_unclamped_totalWater :
    (∀ (record : DailyRecord) (foods : List FoodDef) (pre post : List WaterIntake)
        (w : WaterIntake), w.type = .evaporation →
        (calculateDailyStats { record with waterIntakes := pre ++ w :: post } foods).drinkWater
          = (calculateDailyStats { record with waterIntakes := pre ++ post } foods).drinkWater
            + (-w.amount1))
    ∧ (∀ (record : DailyRecord) (foods : List FoodDef),
        (calculateDailyStats record foods).totalWater
          = (calculateDailyStats record foods).foodWater
            + (calculateDailyStats record foods).drinkWater)
    ∧ ∃ (record : DailyRecord) (foods : List FoodDef),
        (calculateDailyStats record foods).totalWater < 0 := by
  refine ⟨?_, ?_, ?_⟩
  · intro record foods pre post w hw
    rw [calculateDailyStats_eq, calculateDailyStats_eq]
    simp only [List.map_append, List.map_cons, List.sum_append, List.sum_cons,
      waterContribution, hw]
    ring
  · intro record foods
    rw [calculateDailyStats_eq]
  · refine ⟨⟨"r1", "2024-01-01", 0, [], [⟨"w1", .evaporation, 30, some 0, none⟩],
      "", 0, "", ""⟩, [], ?_⟩
    norm_num [calculateDailyStats, waterAccum]

/-- Closed witness for C3: an evaporation entry `{amount 30}` changes
`drinkWater` by exactly `−30`. -/
theorem evaporation_deduction_and_unclamped_totalWater_witness :
    (calculateDailyStats ⟨"r1", "2024-01-01", 0, [], [⟨"w1", .evaporation, 30, some 0, none⟩],
        "", 0, "", ""⟩ []).drinkWater
      = (calculateDailyStats ⟨"r1", "2024-01-01", 0, [], [], "", 0, "", ""⟩ []).drinkWater
        + (-30) := by
  have h := evaporation_deduction_and_unclamped_totalWater.1
    ⟨"r1", "2024-01-01", 0, [], [], "", 0, "", ""⟩ [] [] []
    ⟨"w1", .evaporation, 30, some 0, none⟩ rfl
  simpa using h

/-- C4: a food intake entry whose `foodId` resolves to no catalog definition
never fails and contributes `0` everywhere: the whole result equals the
result for the record with that entry removed. -/
theorem unknown_food_contributes_nothing (record : DailyRecord) (foods : List FoodDef)
    (pre post : List FoodIntake) (i : FoodIntake)
    (h : foods.find? (fun f => f.id == i.foodId) = none) :
    calculateDailyStats { record with foodIntakes := pre ++ i :: post } foods
      = calculateDailyStats { record with foodIntakes := pre ++ post } foods := by
  rw [calculateDailyStats_eq, calculateDailyStats_eq]
  simp [List.map_append, List.map_cons, List.sum_append, List.sum_cons,
    intakeCalories, intakeSideCalories, intakeFoodWater, h]

/-- Closed witness for C4 at a concrete record referencing a missing id. -/
theorem unknown_food_contributes_nothing_witness :
    calculateDailyStats ⟨"r1", "2024-01-01", 4, [⟨"i1", "ghost", 50⟩], [], "", 0, "", ""⟩
        [⟨"f1", "c/d", "飼料", 2, 8, none, none, none⟩]
      = calculateDailyStats ⟨"r1", "2024-01-01", 4, [], [], "", 0, "", ""⟩
        [⟨"f1", "c/d", "飼料", 2, 8, none, none, none⟩] := by
  have h := unknown_food_contributes_nothing
    ⟨"r1", "2024-01-01", 4, [], [], "", 0, "", ""⟩
    [⟨"f1", "c/d", "飼料", 2, 8, none, none, none⟩] [] [] ⟨"i1", "ghost", 50⟩ rfl
  simpa using h

/-- C5: with nonnegative intake amounts and calorie densities,
`sideCalories ≤ totalCalories`, with equality when every resolved
definition is in the snack category (the legacy side-dish category
`"副食"` counting as snack). -/
theorem sideCalories_le_totalCalories (record : DailyRecord) (foods : List FoodDef)
    (hamount : ∀ i ∈ record.foodIntakes, 0 ≤ i.amount)
    (hcal : ∀ f ∈ foods, 0 ≤ f.caloriesPerGram) :
    (calculateDailyStats record foods).sideCalories
        ≤ (calculateDailyStats record foods).totalCalories
    ∧ ((∀ i ∈ record.foodIntakes, ∀ f, foods.find? (fun g => g.id == i.foodId) = some f →
          f.type = "零食" ∨ f.type = "副食") →
        (calculateDailyStats record foods).sideCalories
          = (calculateDailyStats record foods).totalCalories) := by
  rw [calculateDailyStats_eq]
  constructor
  · refine List.sum_le_sum ?_
    intro i hi
    unfold intakeSideCalories intakeCalories
    cases hf : foods.find? (fun f => f.id == i.foodId) with
    | none => exact le_refl 0
    | some f =>
        by_cases hs : (f.type == "零食" || f.type == "副食") = true
        · simp [hs]
        · simp only [hs, if_false, Bool.false_eq_true]
          exact mul_nonneg (hamount i hi) (hcal f (List.mem_of_find?_eq_some hf))
  · intro hsnack
    refine congrArg List.sum (List.map_congr_left ?_)
    intro i hi
    unfold intakeSideCalories intakeCalories
    cases hf : foods.find? (fun f => f.id == i.foodId) with
    | none => rfl
    | some f =>
        have := hsnack i hi f hf
        rcases this with h | h <;> simp [h]

/-- Closed witness for C5 at a concrete all-snack catalog and record. -/
theorem sideCalories_le_totalCalories_witness :
    ((calculateDailyStats ⟨"r1", "2024-01-01", 4, [⟨"i1", "f6", 10⟩], [], "", 0, "", ""⟩
        [⟨"f6", "豹放鬆", "零食", 2, 60, none, none, none⟩]).sideCalories
      ≤ (calculateDailyStats ⟨"r1", "2024-01-01", 4, [⟨"i1", "f6", 10⟩], [], "", 0, "", ""⟩
        [⟨"f6", "豹放鬆", "零食", 2, 60, none, none, none⟩]).totalCalories)
    ∧ ((calculateDailyStats ⟨"r1", "2024-01-01", 4, [⟨"i1", "f6", 10⟩], [], "", 0, "", ""⟩
        [⟨"f6", "豹放鬆", "零食", 2, 60, none, none, none⟩]).sideCalories
      = (calculateDailyStats ⟨"r1", "2024-01-01", 4, [⟨"i1", "f6", 10⟩], [], "", 0, "", ""⟩
        [⟨"f6", "豹放鬆", "零食", 2, 60, none, none, none⟩]).totalCalories) := by
  have h := sideCalories_le_totalCalories
    ⟨"r1", "2024-01-01", 4, [⟨"i1", "f6", 10⟩], [], "", 0, "", ""⟩
    [⟨"f6", "豹放鬆", "零食", 2, 60, none, none, none⟩]
    (by intro i hi; fin_cases hi; norm_num)
    (by intro f hf; fin_cases hf; norm_num)
  exact ⟨h.1, h.2 (by
    intro i hi f hf
    fin_cases hi
    simp [List.find?] at hf
    subst hf
    left
    rfl)⟩

/-- C9: `calculateDailyStats` is a deterministic function of the record's
`foodIntakes` and `waterIntakes` lists and the catalog only: two calls
agreeing on those three inputs return identical results, whatever the
records' `date`, `weight`, `urine`, `stool` or `notes` fields are. -/
theorem calculateDailyStats_depends_only_on_intakes (r1 r2 : DailyRecord)
    (foods1 foods2 : List FoodDef)
    (hfood : r1.foodIntakes = r2.foodIntakes)
    (hwater : r1.waterIntakes = r2.waterIntakes)
    (hcat : foods1 = foods2) :
    calculateDailyStats r1 foods1 = calculateDailyStats r2 foods2 := by
  subst hcat
  unfold calculateDailyStats
  rw [hfood, hwater]

/-- Closed witness for C9: two records equal on the intake lists but
differing in id, date, weight, urine, stool and notes give equal stats. -/
theorem calculateDailyStats_depends_only_on_intakes_witness :
    calculateDailyStats
        ⟨"r1", "2024-01-01", 4, [⟨"i1", "f1", 30⟩], [⟨"w1", .direct, 15, some 0, none⟩],
          "1元", 2, "正常", "換砂"⟩
        [⟨"f1", "c/d", "飼料", 2, 8, none, none, none⟩]
      = calculateDailyStats
        ⟨"r2", "2025-06-30", 9, [⟨"i1", "f1", 30⟩], [⟨"w1", .direct, 15, some 0, none⟩],
          "巨大", 7, "稀便", "點藥"⟩
        [⟨"f1", "c/d", "飼料", 2, 8, none, none, none⟩] :=
  calculateDailyStats_depends_only_on_intakes _ _ _ _ rfl rfl rfl

/-- JavaScript `haystack.includes(needle)` on the character-list view:
true iff `sub` occurs as a contiguous run inside the list. -/
def listContainsSub (sub : List Char) : List Char → Bool
  | [] => sub.isPrefixOf []
  | c :: rest => sub.isPrefixOf (c :: rest) || listContainsSub sub rest

/-- JavaScript `s.includes(sub)`. -/
def jsIncludes (s sub : String) : Bool :=
  listContainsSub sub.data s.data

/-- JavaScript `label.split(' ~ ')`: greedy left-to-right scan for the
three-character separator, modelled on the character list (`cur` is the
reversed chunk currently being accumulated). -/
def splitTilde : List Char → List Char → List (List Char)
  | ' ' :: '~' :: ' ' :: rest, cur => cur.reverse :: splitTilde rest []
  | c :: rest, cur => splitTilde rest (c :: cur)
  | [], cur => [cur.reverse]

/-- `URINE_ANCHORS` from `src/components/HistoryView.tsx` line 15. -/
def URINE_ANCHORS : List String := ["1元", "50元", "半拳", "一拳", "巨大"]

/-- `getUrineValue` from `src/components/HistoryView.tsx` lines 61-71.
`Array.prototype.indexOf` (−1 on a miss) is modelled as `List.findIdx?`
(`none` on a miss); `parts[0]` is `(splitTilde …).headD []` (the JS split
result is never empty). -/
def getUrineValue (label : String) : ℚ :=
  match URINE_ANCHORS.findIdx? (· == label) with
  | some exactIndex => (exactIndex : ℚ)
  | none =>
    if jsIncludes label " ~ " then
      let parts := splitTilde label.data []
      match URINE_ANCHORS.findIdx? (fun a => a.data == parts.headD []) with
      | some startIdx => (startIdx : ℚ) + 1/2
      | none => 2
    else 2

/-- Kernel-computable companion of `getUrineValue`, counting half steps:
it returns twice the ordinal, with the fallback midpoint `2` encoded as
`4`.  Used so that concrete-label facts can be settled by `decide`. -/
def getUrineHalfSteps (label : String) : Nat :=
  match URINE_ANCHORS.findIdx? (· == label) with
  | some exactIndex => 2 * exactIndex
  | none =>
    if jsIncludes label " ~ " then
      match URINE_ANCHORS.findIdx? (fun a => a.data == (splitTilde label.data []).headD []) with
      | some startIdx => 2 * startIdx + 1
      | none => 4
    else 4

theorem getUrineValue_eq_halfSteps (label : String) :
    getUrineValue label = (getUrineHalfSteps label : ℚ) / 2 := by
  unfold getUrineValue getUrineHalfSteps
  cases URINE_ANCHORS.findIdx? (· == label) with
  | some i => push_cast; ring
  | none =>
      by_cases hin : jsIncludes label " ~ " = true
      · simp only [hin, if_true]
        cases URINE_ANCHORS.findIdx? (fun a => a.data == (splitTilde label.data []).headD []) with
        | some j => push_cast; ring
        | none => norm_num
      · simp only [Bool.not_eq_true] at hin
        simp only [hin, Bool.false_eq_true, if_false]
        norm_num

theorem getUrineHalfSteps_fallback (label : String)
    (h1 : label ∉ URINE_ANCHORS)
    (h2 : String.mk ((splitTilde label.data []).headD []) ∉ URINE_ANCHORS) :
    getUrineHalfSteps label = 4 := by
  unfold getUrineHalfSteps
  have hf : URINE_ANCHORS.findIdx? (· == label) = none := by
    rw [List.findIdx?_eq_none_iff]
    intro x hx
    exact beq_eq_false_iff_ne.mpr (fun e => h1 (e ▸ hx))
  rw [hf]
  by_cases hin : jsIncludes label " ~ " = true
  · simp only [hin, if_true]
    have hf2 : URINE_ANCHORS.findIdx?
        (fun a => a.data == (splitTilde label.data []).headD []) = none := by
      rw [List.findIdx?_eq_none_iff]
      intro x hx
      refine beq_eq_false_iff_ne.mpr (fun e => h2 ?_)
      obtain ⟨xd⟩ := x
      exact e ▸ hx
    rw [hf2]
  · simp only [Bool.not_eq_true] at hin
    simp only [hin, Bool.false_eq_true, if_false]

/-- C6: `getUrineValue` maps the i-th anchor label to the ordinal `i`, maps
`"<lower> ~ <upper>"` built from anchor labels to `lowerIndex + 0.5`, and
maps any label that is neither an anchor nor splits to a leading anchor to
the midpoint `2`. -/
theorem getUrineValue_ordinal_spec :
    (∀ i : Fin 5,
        getUrineValue (URINE_ANCHORS.get (Fin.cast (by rfl) i)) = (i.val : ℚ))
    ∧ (∀ i j : Fin 5,
        getUrineValue (URINE_ANCHORS.get (Fin.cast (by rfl) i) ++ " ~ "
            ++ URINE_ANCHORS.get (Fin.cast (by rfl) j))
          = (i.val : ℚ) + 1/2)
    ∧ (∀ label : String, label ∉ URINE_ANCHORS →
        String.mk ((splitTilde label.data []).headD []) ∉ URINE_ANCHORS →
        getUrineValue label = 2) := by
  have h1 : ∀ i : Fin 5,
      getUrineHalfSteps (URINE_ANCHORS.get (Fin.cast (by rfl) i)) = 2 * i.val := by decide
  have h2 : ∀ i j : Fin 5,
      getUrineHalfSteps (URINE_ANCHORS.get (Fin.cast (by rfl) i) ++ " ~ "
        ++ URINE_ANCHORS.get (Fin.cast (by rfl) j)) = 2 * i.val + 1 := by decide
  refine ⟨?_, ?_, ?_⟩
  · intro i
    rw [getUrineValue_eq_halfSteps, h1 i]
    push_cast
    ring
  · intro i j
    rw [getUrineValue_eq_halfSteps, h2 i j]
    push_cast
    ring
  · intro label ha hb
    rw [getUrineValue_eq_halfSteps, getUrineHalfSteps_fallback label ha hb]
    norm_num

/-- Closed witness for C6: `"1元" ↦ 0`, `"1元 ~ 50元" ↦ 0.5`,
`"unknown" ↦ 2`. -/
theorem getUrineValue_ordinal_spec_witness :
    getUrineValue "1元" = 0
    ∧ getUrineValue "1元 ~ 50元" = 1/2
    ∧ getUrineValue "unknown" = 2 := by
  refine ⟨?_, ?_, ?_⟩
  · have h := getUrineValue_ordinal_spec.1 ⟨0, by norm_num⟩
    simpa using h
  · have h := getUrineValue_ordinal_spec.2.1 ⟨0, by norm_num⟩ ⟨1, by norm_num⟩
    norm_num at h
    exact h
  · exact getUrineValue_ordinal_spec.2.2 "unknown" (by decide) (by decide)

/-- Split a character list at every occurrence of a separator character
(JavaScript `s.split('-')`); `cur` is the reversed current chunk. -/
def splitOnChar (sep : Char) : List Char → List Char → List (List Char)
  | [], cur => [cur.reverse]
  | c :: rest, cur =>
      if c == sep then cur.reverse :: splitOnChar sep rest []
      else splitOnChar sep rest (c :: cur)

/-- Decimal digits to a number (used for the date components). -/
def digitsToNat (cs : List Char) : Nat :=
  cs.foldl (fun n c => 10 * n + (c.toNat - '0'.toNat)) 0

/-- Parse a `YYYY-MM-DD` date string into `(year, month, day)`, as
JavaScript `new Date(s)` does for date-only strings.  A string that does
not split into three dash-separated parts falls back to the epoch date
(the program only ever stores well-formed `YYYY-MM-DD` keys). -/
def parseDate (s : String) : Int × Int × Int :=
  match splitOnChar '-' s.data [] with
  | [y, m, d] => ((digitsToNat y : Int), (digitsToNat m : Int), (digitsToNat d : Int))
  | _ => (1970, 1, 1)

/-- Days from the civil epoch 1970-01-01 for a Gregorian date (the standard
era-based algorithm; this is the day count underlying the UTC timestamp
JavaScript assigns to a date-only string). -/
def daysFromCivil (y m d : Int) : Int :=
  let yAdj := if m ≤ 2 then y - 1 else y
  let era := (if 0 ≤ yAdj then yAdj else yAdj - 399) / 400
  let yoe := yAdj - era * 400
  let mp := (m + 9) % 12
  let doy := (153 * mp + 2) / 5 + d - 1
  let doe := yoe * 365 + yoe / 4 - yoe / 100 + doy
  era * 146097 + doe - 719468

/-- Epoch day number of a `YYYY-MM-DD` string. -/
def epochDays (s : String) : Int :=
  let p := parseDate s
  daysFromCivil p.1 p.2.1 p.2.2

/-- `new Date(s).getTime()`: milliseconds since the epoch (UTC midnight for
date-only strings). -/
def dateMs (s : String) : Int :=
  epochDays s * 86400000

/-- The day difference computed in `HistoryView.tsx` (lines 117-120):
`Math.ceil(Math.abs(d1.getTime() - d2.getTime()) / 86400000)`, with the
real ceiling written as Nat ceiling division. -/
def diffDaysJS (a b : String) : Nat :=
  ((dateMs a - dateMs b).natAbs + 86399999) / 86400000

/-- Since date-only timestamps are exact multiples of a day, the
millisecond ceiling computation collapses to the plain absolute difference
of epoch day numbers: the code really counts calendar days. -/
theorem diffDaysJS_eq_dateDiff (a b : String) :
    diffDaysJS a b = (epochDays a - epochDays b).natAbs := by
  unfold diffDaysJS dateMs
  rw [← sub_mul, Int.natAbs_mul]
  have h : (86400000 : Int).natAbs = 86400000 := rfl
  rw [h, Nat.add_comm,
    Nat.add_mul_div_right _ _ (by norm_num : 0 < 86400000)]
  norm_num

/-- Lexicographic code-point comparison of character lists: the order
`localeCompare` induces on `YYYY-MM-DD` keys (ASCII digits and dashes). -/
def charListLe : List Char → List Char → Bool
  | [], _ => true
  | _ :: _, [] => false
  | a :: as, b :: bs =>
      if a.toNat < b.toNat then true
      else if b.toNat < a.toNat then false
      else charListLe as bs

/-- `a.date.localeCompare(b.date) ≤ 0` for two date strings. -/
def dateLe (a b : String) : Bool :=
  charListLe a.data b.data

/-- The `[...records].sort((a, b) => a.date.localeCompare(b.date))` step
shared by the history maps (for `YYYY-MM-DD` keys, locale comparison is
plain lexicographic comparison; ES2019 `sort` is stable, as is
`mergeSort`). -/
def jsSortByDate (records : List DailyRecord) : List DailyRecord :=
  records.mergeSort (fun a b => dateLe a.date b.date)

theorem getLast?_map_filter_cons_or {α β : Type _} (p : α → Bool) (f : α → β)
    (r : α) (t : List α) (last : Option β) :
    ((((r :: t).filter p).map f).getLast?).or last
      = (((t.filter p).map f).getLast?).or (if p r = true then some (f r) else last) := by
  by_cases h : p r = true
  · simp only [List.filter_cons, h, if_true, List.map_cons, List.getLast?_cons]
    cases hm : ((t.filter p).map f).getLast? with
    | none => simp [hm]
    | some y => simp [hm]
  · have h' : p r = false := by simpa using h
    simp [List.filter_cons, h']

theorem getLastD_map_filter_cons {α β : Type _} (p : α → Bool) (f : α → β)
    (r : α) (t : List α) (d : β) :
    ((((r :: t).filter p).map f).getLast?).getD d
      = (((t.filter p).map f).getLast?).getD (if p r = true then f r else d) := by
  by_cases h : p r = true
  · simp [List.filter_cons, h, List.getLast?_cons]
  · have h' : p r = false := by simpa using h
    simp [List.filter_cons, h']

/-- The `hasLitterChange` test from `dailyLitterAgeMap`
(`HistoryView.tsx` line 112): `r.notes && r.notes.includes('換砂')`
(an empty notes string is falsy, and also contains no marker). -/
def hasLitterChange (r : DailyRecord) : Bool :=
  jsIncludes r.notes "換砂"

/-- One step of the `sortedRecords.forEach` loop of `dailyLitterAgeMap`
(`HistoryView.tsx` lines 111-125): the accumulator is the map built so far
(as an ordered association list) together with `lastLitterDate`. -/
def litterStep (acc : List (String × Int) × Option String) (r : DailyRecord) :
    List (String × Int) × Option String :=
  if hasLitterChange r then
    (acc.1 ++ [(r.date, 0)], some r.date)
  else
    match acc.2 with
    | some lastDate => (acc.1 ++ [(r.date, (diffDaysJS r.date lastDate : Int))], acc.2)
    | none => (acc.1 ++ [(r.date, -1)], acc.2)

/-- `dailyLitterAgeMap` from `src/components/HistoryView.tsx` lines
105-128. -/
def dailyLitterAgeMap (records : List DailyRecord) : List (String × Int) :=
  ((jsSortByDate records).foldl litterStep ([], none)).1

/-- Recursive rendering of the litter fold used in proofs. -/
def litterAges (last : Option String) : List DailyRecord → List (String × Int)
  | [] => []
  | r :: rs =>
      if hasLitterChange r then (r.date, 0) :: litterAges (some r.date) rs
      else
        (r.date,
          match last with
          | some d => (diffDaysJS r.date d : Int)
          | none => -1) :: litterAges last rs

/-- Carried `lastLitterDate` after a scan. -/
def lastLitterAfter (last : Option String) : List DailyRecord → Option String
  | [] => last
  | r :: rs => lastLitterAfter (if hasLitterChange r then some r.date else last) rs

theorem litterFold_eq (l : List DailyRecord) :
    ∀ (acc : List (String × Int)) (last : Option String),
      l.foldl litterStep (acc, last)
        = (acc ++ litterAges last l, lastLitterAfter last l) := by
  induction l with
  | nil => intro acc last; simp [litterAges, lastLitterAfter]
  | cons r rs ih =>
      intro acc last
      simp only [List.foldl_cons, litterStep, litterAges, lastLitterAfter]
      by_cases h : hasLitterChange r = true
      · simp [h, ih]
      · have h' : hasLitterChange r = false := by simpa using h
        cases last with
        | none => simp [h', ih]
        | some d => simp [h', ih]

/-- The spec-side notion "date of the most recent marked record in this
(chronologically ordered) list", used by the C7 characterization. -/
def lastMarkedDate (l : List DailyRecord) : Option String :=
  ((l.filter hasLitterChange).map DailyRecord.date).getLast?

theorem litterAges_getElem? (l : List DailyRecord) :
    ∀ (last : Option String) (k : Nat),
      (litterAges last l)[k]? =
        (l[k]?).map (fun r =>
          (r.date,
            if hasLitterChange r then (0 : Int)
            else
              match (lastMarkedDate (l.take k)).or last with
              | some d => (diffDaysJS r.date d : Int)
              | none => -1)) := by
  induction l with
  | nil => intro last k; simp [litterAges]
  | cons r rs ih =>
      intro last k
      cases k with
      | zero =>
          by_cases h : hasLitterChange r = true
          · simp [litterAges, h, lastMarkedDate]
          · have h' : hasLitterChange r = false := by simpa using h
            simp [litterAges, h', lastMarkedDate]
      | succ k =>
          have hstep : (lastMarkedDate (r :: rs.take k)).or last
              = (lastMarkedDate (rs.take k)).or
                  (if hasLitterChange r = true then some r.date else last) := by
            simpa [lastMarkedDate] using
              getLast?_map_filter_cons_or hasLitterChange DailyRecord.date r (rs.take k) last
          by_cases h : hasLitterChange r = true
          · simp only [litterAges, h, if_true, List.getElem?_cons_succ, List.take_succ_cons]
            rw [ih (some r.date) k]
            simp only [hstep, h, if_true]
          · have h' : hasLitterChange r = false := by simpa using h
            simp only [litterAges, h', Bool.false_eq_true, if_false,
              List.getElem?_cons_succ, List.take_succ_cons]
            rw [ih last k]
            simp only [hstep, h', Bool.false_eq_true, if_false]

/-- C7: in the days-since-litter-change map, a marked date gets `0`, an
unmarked date gets the day distance to the most recent earlier marked date,
and dates before any marked date get the sentinel `−1`; on the concrete
history 01-01 (marked), 01-05 (unmarked), 01-10 (marked) the map is
`{01-01 ↦ 0, 01-05 ↦ 4, 01-10 ↦ 0}`. -/
theorem dailyLitterAgeMap_spec :
    (∀ (records : List DailyRecord) (k : Nat),
      (dailyLitterAgeMap records)[k]? =
        ((jsSortByDate records)[k]?).map (fun r =>
          (r.date,
            if hasLitterChange r then (0 : Int)
            else
              match lastMarkedDate ((jsSortByDate records).take k) with
              | some d => ((epochDays r.date - epochDays d).natAbs : Int)
              | none => -1)))
    ∧ dailyLitterAgeMap
        [⟨"r1", "2024-01-01", 0, [], [], "", 0, "", "換砂"⟩,
         ⟨"r2", "2024-01-05", 0, [], [], "", 0, "", ""⟩,
         ⟨"r3", "2024-01-10", 0, [], [], "", 0, "", "換砂"⟩]
      = [("2024-01-01", 0), ("2024-01-05", 4), ("2024-01-10", 0)] := by
  constructor
  · intro records k
    unfold dailyLitterAgeMap
    rw [litterFold_eq]
    simp only [List.nil_append]
    rw [litterAges_getElem?]
    simp only [Option.or_none, diffDaysJS_eq_dateDiff]
  · have hs : jsSortByDate
        [⟨"r1", "2024-01-01", 0, [], [], "", 0, "", "換砂"⟩,
         ⟨"r2", "2024-01-05", 0, [], [], "", 0, "", ""⟩,
         ⟨"r3", "2024-01-10", 0, [], [], "", 0, "", "換砂"⟩]
      = [⟨"r1", "2024-01-01", 0, [], [], "", 0, "", "換砂"⟩,
         ⟨"r2", "2024-01-05", 0, [], [], "", 0, "", ""⟩,
         ⟨"r3", "2024-01-10", 0, [], [], "", 0, "", "換砂"⟩] := by
      unfold jsSortByDate
      exact List.mergeSort_of_sorted (by decide)
    unfold dailyLitterAgeMap
    rw [hs]
    decide

/-- One step of the `sortedRecords.forEach` loop of `dailyWeightMap`
(`HistoryView.tsx` lines 88-102): the accumulator is the map built so far
together with `lastKnownWeight`. -/
def weightStep (acc : List (String × ℚ) × ℚ) (r : DailyRecord) :
    List (String × ℚ) × ℚ :=
  let lastKnownWeight := if 0 < r.weight then r.weight else acc.2
  (acc.1 ++ [(r.date, lastKnownWeight)], lastKnownWeight)

/-- `dailyWeightMap` from `src/components/HistoryView.tsx` lines 88-102:
forward-fill of the last positive weight, seeded with `5.0`. -/
def dailyWeightMap (records : List DailyRecord) : List (String × ℚ) :=
  ((jsSortByDate records).foldl weightStep ([], 5)).1

/-- Recursive rendering of the weight fold used in proofs. -/
def weightFill (last : ℚ) : List DailyRecord → List (String × ℚ)
  | [] => []
  | r :: rs =>
      (r.date, if 0 < r.weight then r.weight else last) ::
        weightFill (if 0 < r.weight then r.weight else last) rs

/-- Carried `lastKnownWeight` after a scan. -/
def lastWeightAfter (last : ℚ) : List DailyRecord → ℚ
  | [] => last
  | r :: rs => lastWeightAfter (if 0 < r.weight then r.weight else last) rs

theorem weightFold_eq (l : List DailyRecord) :
    ∀ (acc : List (String × ℚ)) (last : ℚ),
      l.foldl weightStep (acc, last)
        = (acc ++ weightFill last l, lastWeightAfter last l) := by
  induction l with
  | nil => intro acc last; simp [weightFill, lastWeightAfter]
  | cons r rs ih =>
      intro acc last
      simp only [List.foldl_cons, weightStep, weightFill, lastWeightAfter]
      by_cases h : 0 < r.weight
      · simp [h, ih]
      · simp [h, ih]

/-- The spec-side notion "most recently recorded positive weight in this
(chronologically ordered) list, defaulting to `dflt`". -/
def lastPositiveWeightD (l : List DailyRecord) (dflt : ℚ) : ℚ :=
  (((l.filter (fun r => 0 < r.weight)).map DailyRecord.weight).getLast?).getD dflt

theorem weightFill_getElem? (l : List DailyRecord) :
    ∀ (last : ℚ) (k : Nat),
      (weightFill last l)[k]? =
        (l[k]?).map (fun r => (r.date, lastPositiveWeightD (l.take (k + 1)) last)) := by
  induction l with
  | nil => intro last k; simp [weightFill]
  | cons r rs ih =>
      intro last k
      cases k with
      | zero =>
          by_cases h : 0 < r.weight
          · simp [weightFill, lastPositiveWeightD, h]
          · simp [weightFill, lastPositiveWeightD, h]
      | succ k =>
          have hstep : lastPositiveWeightD (r :: rs.take (k + 1)) last
              = lastPositiveWeightD (rs.take (k + 1))
                  (if 0 < r.weight then r.weight else last) := by
            have hg := getLastD_map_filter_cons (fun x : DailyRecord => decide (0 < x.weight))
              DailyRecord.weight r (rs.take (k + 1)) last
            by_cases h : 0 < r.weight
            · have h' : (decide (0 < r.weight)) = true := by simp [h]
              simp only [lastPositiveWeightD, if_pos h]
              simp only [h', if_true] at hg
              exact hg
            · have h' : (decide (0 < r.weight)) = false := by simp [h]
              simp only [lastPositiveWeightD, if_neg h]
              simp only [h', Bool.false_eq_true, if_false] at hg
              exact hg
          simp only [weightFill, List.getElem?_cons_succ, List.take_succ_cons]
          rw [ih]
          simp only [hstep]

/-- C8: the k-th entry of the per-date weight map carries the k-th sorted
record's date together with the most recently recorded positive weight at
or before that date, with fallback weight `5.0` before any positive weight
exists. -/
theorem dailyWeightMap_spec (records : List DailyRecord) (k : Nat) :
    (dailyWeightMap records)[k]? =
      ((jsSortByDate records)[k]?).map (fun r =>
        (r.date, lastPositiveWeightD ((jsSortByDate records).take (k + 1)) 5)) := by
  unfold dailyWeightMap
  rw [weightFold_eq]
  simp only [List.nil_append]
  rw [weightFill_getElem?]

theorem countP_le_countP_of_map {α : Type _} (g : α → α) (p q : α → Bool) :
    ∀ l : List α, (∀ x ∈ l, p (g x) = true → q x = true) →
      (l.map g).countP p ≤ l.countP q := by
  intro l
  induction l with
  | nil => intro h; simp
  | cons a t ih =>
      intro h
      simp only [List.map_cons, List.countP_cons]
      have h1 := ih (fun x hx hpx => h x (List.mem_cons_of_mem a hx) hpx)
      by_cases hp : p (g a) = true
      · have hq := h a (List.mem_cons_self a t) hp
        rw [if_pos hp, if_pos hq]
        omega
      · rw [if_neg hp]
        by_cases hq : q a = true
        · rw [if_pos hq]; omega
        · rw [if_neg hq]; omega

theorem eq_of_countP_le_one {α : Type _} {p : α → Bool} {l : List α}
    (h : l.countP p ≤ 1) {x y : α} (hx : x ∈ l) (hy : y ∈ l)
    (hpx : p x = true) (hpy : p y = true) : x = y := by
  have hx' : x ∈ l.filter p := List.mem_filter.mpr ⟨hx, hpx⟩
  have hy' : y ∈ l.filter p := List.mem_filter.mpr ⟨hy, hpy⟩
  have hlen : (l.filter p).length ≤ 1 := by
    rw [← List.countP_eq_length_filter]
    exact h
  cases hf : l.filter p with
  | nil => rw [hf] at hx'; exact absurd hx' (List.not_mem_nil x)
  | cons z t =>
      rw [hf] at hlen hx' hy'
      have ht : t = [] := by
        simp only [List.length_cons] at hlen
        exact List.eq_nil_of_length_eq_zero (by omega)
      subst ht
      have hxz := List.mem_singleton.mp hx'
      have hyz := List.mem_singleton.mp hy'
      rw [hxz, hyz]

/-- Number of catalog entries flagged as the default food
(`f.isDefault` truthy). -/
def countDefaults (foods : List FoodDef) : Nat :=
  foods.countP (fun f => f.isDefault.getD false)

/-- The pure state transition performed by `handleSaveFood` on the `foods`
state (root component, `src/unnamed/part_000` lines 1122-1158): when the
incoming food is flagged default, the first existing default with a
different id is cleared; then the food is updated in place if its id
exists, otherwise appended (prepended in display order); finally the list
is re-sorted by display order.  The two remote `saveFoodToRemote` calls
mirror exactly these list changes and are elided. -/
def handleSaveFood (foods : List FoodDef) (newFood : FoodDef) : List FoodDef :=
  let updatedPreviousDefault : Option FoodDef :=
    if newFood.isDefault.getD false then
      (foods.find? (fun f => f.isDefault.getD false && (f.id != newFood.id))).map
        (fun f => { f with isDefault := some false })
    else none
  let nextFoods : List FoodDef :=
    match updatedPreviousDefault with
    | some u => foods.map (fun f => if f.id == u.id then u else f)
    | none => foods
  let nextFoods2 : List FoodDef :=
    if nextFoods.any (fun f => f.id == newFood.id) then
      nextFoods.map (fun f => if f.id == newFood.id then newFood else f)
    else
      let minOrder := nextFoods.foldl (fun m f => min m (f.order.getD 0)) 0
      nextFoods ++ [{ newFood with order := some (newFood.order.getD (minOrder - 1)) }]
  nextFoods2.mergeSort (fun a b => a.order.getD 0 ≤ b.order.getD 0)

theorem countP_id_le_one (l : List FoodDef) (nid : String)
    (h : (l.map FoodDef.id).Nodup) :
    l.countP (fun f => f.id == nid) ≤ 1 := by
  have hmap : l.countP (fun f => f.id == nid)
      = (l.map FoodDef.id).countP (fun s => s == nid) := by
    rw [List.countP_map]
    rfl
  rw [hmap]
  have hc := List.nodup_iff_count_le_one.mp h nid
  simpa [List.count] using hc

/-- C10: saving a food preserves uniqueness of the default flag — if the
catalog (with its ids distinct, as a mapping of id to definition) has at
most one default entry before `handleSaveFood`, it has at most one after,
because a new default first clears any existing different default. -/
theorem handleSaveFood_preserves_unique_default (foods : List FoodDef) (newFood : FoodDef)
    (hids : (foods.map FoodDef.id).Nodup)
    (hone : countDefaults foods ≤ 1) :
    countDefaults (handleSaveFood foods newFood) ≤ 1 := by
  have hms : ∀ m : List FoodDef,
      (m.mergeSort (fun a b => a.order.getD 0 ≤ b.order.getD 0)).countP
          (fun f => f.isDefault.getD false)
        = m.countP (fun f => f.isDefault.getD false) :=
    fun m => List.Perm.countP_eq _ (List.mergeSort_perm m _)
  unfold countDefaults at hone ⊢
  simp only [handleSaveFood]
  rw [hms]
  by_cases hnew : newFood.isDefault.getD false = true
  · rw [if_pos hnew]
    cases hfind : foods.find? (fun f => f.isDefault.getD false && (f.id != newFood.id)) with
    | some u =>
        have hu := List.find?_some hfind
        have humem := List.mem_of_find?_eq_some hfind
        have hudef : u.isDefault.getD false = true := by
          simp only [Bool.and_eq_true] at hu
          exact hu.1
        simp only [Option.map_some']
        have hzero : (foods.map
            (fun f => if f.id == ({ u with isDefault := some false } : FoodDef).id
              then { u with isDefault := some false } else f)).countP
            (fun f => f.isDefault.getD false) = 0 := by
          rw [List.countP_eq_zero]
          intro y hy
          obtain ⟨x, hx, rfl⟩ := List.mem_map.mp hy
          by_cases hxid : (x.id == ({ u with isDefault := some false } : FoodDef).id) = true
          · rw [if_pos hxid]
            simp
          · rw [if_neg hxid]
            intro hpx
            have hxu := eq_of_countP_le_one hone hx humem hpx hudef
            apply hxid
            rw [hxu]
            exact beq_self_eq_true _
        have hids1 : ((foods.map
            (fun f => if f.id == ({ u with isDefault := some false } : FoodDef).id
              then { u with isDefault := some false } else f)).map FoodDef.id).Nodup := by
          have hsame : (foods.map
              (fun f => if f.id == ({ u with isDefault := some false } : FoodDef).id
                then { u with isDefault := some false } else f)).map FoodDef.id
              = foods.map FoodDef.id := by
            rw [List.map_map]
            refine List.map_congr_left ?_
            intro x hx
            simp only [Function.comp_apply]
            by_cases hxid : (x.id == ({ u with isDefault := some false } : FoodDef).id) = true
            · rw [if_pos hxid]
              exact (eq_of_beq hxid).symm
            · rw [if_neg hxid]
          rw [hsame]
          exact hids
        by_cases hex : ((foods.map
            (fun f => if f.id == ({ u with isDefault := some false } : FoodDef).id
              then { u with isDefault := some false } else f)).any
            (fun f => f.id == newFood.id)) = true
        · rw [if_pos hex]
          refine le_trans (countP_le_countP_of_map _ _ (fun f => f.id == newFood.id) _ ?_)
            (countP_id_le_one _ _ hids1)
          intro x hx hpx
          by_cases hid : (x.id == newFood.id) = true
          · exact hid
          · rw [if_neg hid] at hpx
            exact absurd hpx (List.countP_eq_zero.mp hzero x hx)
        · rw [if_neg hex]
          rw [List.countP_append, hzero]
          by_cases hnf : (({ newFood with order := some (newFood.order.getD
              ((foods.map (fun f => if f.id == ({ u with isDefault := some false } : FoodDef).id
                then { u with isDefault := some false } else f)).foldl
                  (fun m f => min m (f.order.getD 0)) 0 - 1)) } : FoodDef).isDefault.getD false)
              = true
          · simp [List.countP_cons, hnf]
          · simp [List.countP_cons, hnf]
    | none =>
        have hnone := List.find?_eq_none.mp hfind
        have hkey : ∀ x ∈ foods, x.isDefault.getD false = true → (x.id == newFood.id) = true := by
          intro x hx hpx
          have hb := hnone x hx
          have hxid : x.id = newFood.id := by simpa [hpx] using hb
          rw [hxid]
          exact beq_self_eq_true _
        simp only [Option.map_none']
        by_cases hex : (foods.any (fun f => f.id == newFood.id)) = true
        · rw [if_pos hex]
          refine le_trans (countP_le_countP_of_map _ _ (fun f => f.id == newFood.id) _ ?_)
            (countP_id_le_one _ _ hids)
          intro x hx hpx
          by_cases hid : (x.id == newFood.id) = true
          · exact hid
          · rw [if_neg hid] at hpx
            exact absurd (hkey x hx hpx) hid
        · rw [if_neg hex]
          have hz : foods.countP (fun f => f.isDefault.getD false) = 0 := by
            rw [List.countP_eq_zero]
            intro x hx hpx
            exact hex (List.any_eq_true.mpr ⟨x, hx, hkey x hx hpx⟩)
          rw [List.countP_append, hz]
          simp [List.countP_cons]
          split <;> omega
  · rw [if_neg hnew]
    have hnewf : newFood.isDefault.getD false = false := by simpa using hnew
    by_cases hex : (foods.any (fun f => f.id == newFood.id)) = true
    · rw [if_pos hex]
      refine le_trans (countP_le_countP_of_map _ _ (fun f => f.isDefault.getD false) _ ?_) hone
      intro x hx hpx
      by_cases hid : (x.id == newFood.id) = true
      · rw [if_pos hid] at hpx
        exact absurd hpx hnew
      · rw [if_neg hid] at hpx
        exact hpx
    · rw [if_neg hex]
      rw [List.countP_append]
      simp [List.countP_cons, hnewf]
      omega

/-- Closed witness for C10: saving a new default food next to an existing
different default keeps the default count at one. -/
theorem handleSaveFood_preserves_unique_default_witness :
    countDefaults (handleSaveFood
        [⟨"f1", "a", "飼料", 2, 8, some 0, some true, none⟩,
         ⟨"f2", "b", "罐頭", 1, 80, some 1, none, none⟩]
        ⟨"f3", "c", "零食", 1, 60, none, some true, none⟩) ≤ 1 :=
  handleSaveFood_preserves_unique_default _ _ (by decide) (by decide)

end Pibao
